import Mathlib

/-!
Verification of the CryptoKit trading-toolkit facade demonstrated in `Example.ipynb`.

The notebook exercises three facades from the external `crypto_kit` library: a `Logger`
writing timestamped messages to a SQLite table `(id, timestamp, message)`, a `Listener`
fetching live prices and paged historical OHLCV candles, and an `AlpacaOrderManager`
submitting, canceling and offsetting orders against a brokerage venue.  The notebook itself
contains the log-reading query (`SELECT * FROM logs ORDER BY timestamp DESC`), the credential
construction from `config.json`, and the bounded polling loop; the bodies of the library
methods are not part of the repository and are modelled here from the specification, as
flagged on each such definition.

Timestamps are modelled as natural numbers (seconds since an epoch), prices and quantities
as integers / naturals (fixed-point decimals scaled to integers).
-/

namespace CryptoKit

/-- A row of the `logs` table: `(id, timestamp, message)`, immutable once written. -/
structure LogEntry where
  id : Nat
  timestamp : Nat
  message : String
deriving DecidableEq, Repr

/-- The Logger's durable store: the next auto-increment id and the rows in insertion order. -/
structure LoggerState where
  nextId : Nat
  entries : List LogEntry
deriving DecidableEq, Repr

/-- The row that `Logger.log` writes for message `message` at clock time `now`. -/
def mkEntry (st : LoggerState) (message : String) (now : Nat) : LogEntry :=
  { id := st.nextId, timestamp := now, message := message }

/-- Modelled from the spec: `Logger.log` (body in the unseen `crypto_kit` library) appends one
`LogEntry` row carrying the current timestamp to the durable store; it never mutates or
deletes existing rows.  The wall clock is passed in as `now`. -/
def Logger.log (st : LoggerState) (message : String) (now : Nat) : LoggerState :=
  { nextId := st.nextId + 1, entries := st.entries ++ [mkEntry st message now] }

/-- The comparison used by `ORDER BY timestamp DESC`: `a` sorts no later than `b` when its
timestamp is at least `b`'s. -/
def tsDesc (a b : LogEntry) : Prop :=
  b.timestamp ≤ a.timestamp

instance : DecidableRel tsDesc :=
  fun a b => Nat.decLe b.timestamp a.timestamp

instance : IsTotal LogEntry tsDesc :=
  ⟨fun a b => Nat.le_total b.timestamp a.timestamp⟩

instance : IsTrans LogEntry tsDesc :=
  ⟨fun _ _ _ h1 h2 => Nat.le_trans h2 h1⟩

/-- Embeds `fetch_all_logs` from the notebook: `SELECT * FROM logs ORDER BY timestamp DESC`,
a stable descending sort on the timestamp column (rows with equal timestamps appear in
insertion order, as in the notebook's observed output). -/
def fetch_all_logs (st : LoggerState) : List LogEntry :=
  List.insertionSort tsDesc st.entries

/-- One OHLCV bar.  Prices and volume are fixed-point decimals scaled to integers. -/
structure Candle where
  timestamp : Nat
  opn : Int
  high : Int
  low : Int
  close : Int
  volume : Int
deriving DecidableEq, Repr

/-- Modelled from the spec: a single capped request to the market-data venue (the unseen
library's per-request OHLCV call).  The venue holds the chronological candle list `venue` and
answers with at most `cap` candles at or after time `since`, oldest first. -/
def fetchPage (venue : List Candle) (since cap : Nat) : List Candle :=
  (venue.filter (fun c => since ≤ c.timestamp)).take cap

/-- What one historical fetch produced: the returned candles, the raw pages (batches)
retrieved from the venue, and the log messages written along the way. -/
structure FetchResult where
  candles : List Candle
  batches : List (List Candle)
  logs : List String
deriving DecidableEq, Repr

/-- The log line written for each fetched page, as observed in the notebook output. -/
def batchLogMsg (symbol timeframe : String) : String :=
  "Fetched batch of historical data for " ++ symbol ++ " with timeframe " ++ timeframe ++ "."

/-- Modelled from the spec: the paging loop inside `Listener.fetch_historical_data` (body in
the unseen `crypto_kit` library).  Starting at `since`, it requests a capped page, logs one
`Fetched batch` message per page retrieved, keeps the candles before `endT`, and continues
from just after the last candle of the page while the page was full and ended before `endT`.
`fuel` bounds the number of iterations; the top-level wrapper supplies enough of it. -/
def fetchLoop (venue : List Candle) (symbol timeframe : String) (cap endT : Nat) :
    Nat → Nat → FetchResult
  | 0, _ => ⟨[], [], []⟩
  | fuel + 1, since =>
    let batch := fetchPage venue since cap
    match batch.getLast? with
    | none => ⟨[], [], []⟩
    | some last =>
      let keep := batch.filter (fun c => c.timestamp < endT)
      if endT ≤ last.timestamp + 1 ∨ batch.length < cap then
        ⟨keep, [batch], [batchLogMsg symbol timeframe]⟩
      else
        let r := fetchLoop venue symbol timeframe cap endT fuel (last.timestamp + 1)
        ⟨keep ++ r.candles, batch :: r.batches, batchLogMsg symbol timeframe :: r.logs⟩

/-- Modelled from the spec: `Listener.fetch_historical_data symbol timeframe start endT`
pages through the venue's capped responses over the half-open range `[start, endT)`.
`market` gives the venue's full chronological candle list per symbol and timeframe; `cap` is
the venue's per-request cap. -/
def fetch_historical_data (market : String → String → List Candle)
    (symbol timeframe : String) (cap start endT : Nat) : FetchResult :=
  fetchLoop (market symbol timeframe) symbol timeframe cap endT
    ((market symbol timeframe).length + 1) start

/-- Venue-reported order status, as forwarded verbatim by the facade. -/
inductive OrderStatus where
  | pendingNew
  | accepted
  | partiallyFilled
  | filled
  | canceled
  | expired
  | rejected
deriving DecidableEq, Repr

/-- Terminal statuses: the venue refuses to cancel an order that reached one of these. -/
def OrderStatus.isTerminal : OrderStatus → Bool
  | .filled => true
  | .canceled => true
  | .expired => true
  | .rejected => true
  | _ => false

/-- Look up an order's venue-reported status by its identifier. -/
def lookupOrder (orders : List (String × OrderStatus)) (oid : String) : Option OrderStatus :=
  (orders.find? (fun p => p.1 == oid)).map (fun p => p.2)

/-- The error-level line the facade logs when the venue rejects a cancellation, as observed
in the notebook output. -/
def errorCancelMsg : String :=
  "Error canceling order: order is already in a terminal state"

/-- A message is error-level when it reports an error (it starts with `Error`), per the
observed log convention. -/
def isErrorLevel (msg : String) : Bool :=
  msg.data.take 5 == "Error".data

/-- Result of a cancellation attempt: the boolean returned to the caller and the log
messages the call appended. -/
structure CancelOutcome where
  ok : Bool
  logs : List String
deriving DecidableEq, Repr

/-- Modelled from the spec: `cancel_order` (body in the unseen `crypto_kit` library) asks the
venue to cancel `oid`.  When the order already reached a terminal state the venue rejects the
request; the facade logs one error-level message and returns `false` instead of raising. -/
def cancel_order (orders : List (String × OrderStatus)) (oid : String) : CancelOutcome :=
  match lookupOrder orders oid with
  | none => ⟨false, ["Error canceling order: order not found"]⟩
  | some st =>
    if st.isTerminal then ⟨false, [errorCancelMsg]⟩
    else ⟨true, []⟩

/-- Direction of a held position. -/
inductive Side where
  | long
  | short
deriving DecidableEq, Repr

/-- Side of an order sent to the venue. -/
inductive OrderSide where
  | buy
  | sell
deriving DecidableEq, Repr

/-- Order kind; the notebook only exercises market orders. -/
inductive OrderType where
  | market
  | limit
deriving DecidableEq, Repr

/-- A venue-held position snapshot: symbol, held quantity (scaled), and direction. -/
structure Position where
  symbol : String
  qty : Nat
  side : Side
deriving DecidableEq, Repr

/-- An order request as submitted to the venue. -/
structure OrderReq where
  symbol : String
  otype : OrderType
  side : OrderSide
  qty : Nat
deriving DecidableEq, Repr

/-- The side of the order that offsets (closes) a position: sell-to-close for a long,
buy-to-cover for a short. -/
def closeSide : Side → OrderSide
  | .long => .sell
  | .short => .buy

/-- The brokerage venue as seen by the order manager: open positions, the orders it holds,
and its acceptance decision for a submitted request. -/
structure Venue where
  positions : List Position
  orders : List OrderReq
  accepts : OrderReq → Bool

/-- Modelled from the spec: `create_order` (body in the unseen `crypto_kit` library) submits
a request; when the venue accepts, the venue records the order and the facade returns the
order record, otherwise it returns an absent value and the venue is unchanged. -/
def create_order (v : Venue) (req : OrderReq) : Option OrderReq × Venue :=
  if v.accepts req then (some req, { v with orders := v.orders ++ [req] })
  else (none, v)

/-- Result of `exit_position`: the boolean returned to the caller, the order requests the
call submitted to the venue, and the venue state afterwards. -/
structure ExitOutcome where
  ok : Bool
  sent : List OrderReq
  venue : Venue

/-- Modelled from the spec: `exit_position` (body in the unseen `crypto_kit` library) looks
up the open position for `symbol` and submits one offsetting market order sized to the held
quantity, returning whether the venue accepted it; with no matching position it submits
nothing and returns `false`. -/
def exit_position (v : Venue) (symbol : String) : ExitOutcome :=
  match v.positions.find? (fun p => p.symbol == symbol) with
  | none => ⟨false, [], v⟩
  | some p =>
    let req : OrderReq := ⟨symbol, .market, closeSide p.side, p.qty⟩
    let res := create_order v req
    ⟨res.1.isSome, [req], res.2⟩

/-- A latest-trade price for an instrument. -/
structure PricePoint where
  symbol : String
  price : Int
deriving DecidableEq, Repr

/-- The market-data venue's latest-price table: the symbols it can currently price. -/
def lookupTicker (tickers : List (String × Int)) (symbol : String) : Option Int :=
  (tickers.find? (fun p => p.1 == symbol)).map (fun p => p.2)

/-- Modelled from the spec: `Listener.fetch_price` (body in the unseen `crypto_kit` library).
The `Except` layer distinguishes a raised fault from a returned value: a symbol the venue
cannot price yields `Except.ok none` (an absent result for the caller's null check), never an
`Except.error`. -/
def fetch_price (tickers : List (String × Int)) (symbol : String) :
    Except String (Option PricePoint) :=
  match lookupTicker tickers symbol with
  | none => Except.ok none
  | some p => Except.ok (some ⟨symbol, p⟩)

/-- Python `dict.get(k)` on a string-keyed table: `none` when the key is missing. -/
def dictFind {α : Type} (d : List (String × α)) (k : String) : Option α :=
  (d.find? (fun p => p.1 == k)).map (fun p => p.2)

/-- Python `dict.get(k, dflt)`: the stored value, or `dflt` when the key is missing. -/
def dictGetD {α : Type} (d : List (String × α)) (k : String) (dflt : α) : α :=
  (dictFind d k).getD dflt

/-- The parsed `config.json`: venue name to a table of credential fields. -/
abbrev Config := List (String × List (String × String))

/-- Credential pair handed to the venue client, as constructed in the notebook. -/
structure APIKey where
  key : String
  secret : String
deriving DecidableEq, Repr

/-- Embeds the credential construction from the notebook:
`APIKey(key=config.get("alpaca", {}).get("key", ""), secret=config.get("alpaca", {}).get("secret", ""))`. -/
def alpaca_credentials (config : Config) : APIKey :=
  { key := dictGetD (dictGetD config "alpaca" []) "key" ""
    secret := dictGetD (dictGetD config "alpaca" []) "secret" "" }

/-- Observable events of one iteration of the notebook's polling loop: the `fetch_price`
call and the fixed one-second sleep that follows it. -/
inductive Ev where
  | fetchPriceCall
  | sleepOneSecond
deriving DecidableEq, Repr

/-- Embeds the notebook's bounded polling loop `for _ in range(5)`: each iteration fetches a
price and then sleeps one second.  A `KeyboardInterrupt` arriving during iteration `k` is
modelled by `intr = some k` and raised as `Except.error ()`, abandoning the rest of the
loop. -/
def pollLoop : Nat → Nat → Option Nat → Except Unit (List Ev)
  | 0, _, _ => Except.ok []
  | n + 1, i, intr =>
    if intr = some i then Except.error ()
    else
      match pollLoop n (i + 1) intr with
      | Except.ok rest => Except.ok (Ev.fetchPriceCall :: Ev.sleepOneSecond :: rest)
      | Except.error e => Except.error e

/-- What the demonstration cell observably did: the events that ran, whether the
`except KeyboardInterrupt` handler fired, and whether any fault left the cell. -/
structure DemoOutcome where
  events : List Ev
  stoppedByInterrupt : Bool
  faultPropagated : Bool
deriving DecidableEq, Repr

/-- Embeds the notebook's continuous-update cell: the five-iteration polling loop wrapped in
`try ... except KeyboardInterrupt`, which catches the interrupt and merely prints. -/
def continuous_update_demo (intr : Option Nat) : DemoOutcome :=
  match pollLoop 5 0 intr with
  | Except.ok evs => ⟨evs, false, false⟩
  | Except.error _ => ⟨[], true, false⟩

/-- C1: logging a message `m` and then running `fetch_all` yields a sequence whose first
(newest) record's message equals `m`, provided the wall clock has moved strictly past every
timestamp already in the store (`fetch_all` orders by timestamp descending). -/
theorem log_then_fetch_all_head (st : LoggerState) (m : String) (now : Nat)
    (hfresh : ∀ e ∈ st.entries, e.timestamp < now) :
    (fetch_all_logs (Logger.log st m now)).head?.map LogEntry.message = some m := by
  have hmem : mkEntry st m now ∈ fetch_all_logs (Logger.log st m now) := by
    unfold fetch_all_logs Logger.log
    rw [List.mem_insertionSort]
    exact List.mem_append_right _ (List.mem_singleton_self _)
  have hsorted : List.Sorted tsDesc (fetch_all_logs (Logger.log st m now)) :=
    List.sorted_insertionSort tsDesc _
  have hsub : ∀ x ∈ fetch_all_logs (Logger.log st m now),
      x ∈ st.entries ∨ x = mkEntry st m now := by
    intro x hx
    unfold fetch_all_logs Logger.log at hx
    rw [List.mem_insertionSort] at hx
    rcases List.mem_append.mp hx with h | h
    · exact Or.inl h
    · exact Or.inr (List.mem_singleton.mp h)
  cases hres : fetch_all_logs (Logger.log st m now) with
  | nil => rw [hres] at hmem; exact absurd hmem (List.not_mem_nil _)
  | cons hd tl =>
    have hhd : hd ∈ st.entries ∨ hd = mkEntry st m now := by
      refine hsub hd ?_
      rw [hres]
      exact List.mem_cons_self hd tl
    have hhd_eq : hd = mkEntry st m now := by
      rcases hhd with hin | heq
      · exfalso
        have hlt : hd.timestamp < now := hfresh hd hin
        have hemem : mkEntry st m now ∈ hd :: tl := by rw [← hres]; exact hmem
        rcases List.mem_cons.mp hemem with h1 | h1
        · have : (mkEntry st m now).timestamp = hd.timestamp := by rw [h1]
          simp only [mkEntry] at this
          exact absurd hlt (by rw [← this]; exact Nat.lt_irrefl now)
        · have hrel : tsDesc hd (mkEntry st m now) :=
            List.rel_of_sorted_cons (hres ▸ hsorted) _ h1
          have hge : now ≤ hd.timestamp := hrel
          exact absurd hlt (Nat.not_lt.mpr hge)
      · exact heq
    rw [hhd_eq]
    rfl

/-- Witness for C1 at a concrete logger state and message. -/
theorem log_then_fetch_all_head_witness :
    (fetch_all_logs (Logger.log ⟨1, [⟨0, 0, "boot"⟩]⟩ "hello" 7)).head?.map
      LogEntry.message = some "hello" :=
  log_then_fetch_all_head ⟨1, [⟨0, 0, "boot"⟩]⟩ "hello" 7 (by decide)

/-- C7: the Logger store is append-only: `log` only appends a row, never mutating or
deleting existing ones; every previously written row and the newly written one are visible
to a subsequent `fetch_all`, and `fetch_all` presents the rows ordered by timestamp
descending. -/
theorem logger_append_only_visible_sorted (st : LoggerState) (m : String) (now : Nat) :
    (Logger.log st m now).entries = st.entries ++ [mkEntry st m now] ∧
    (∀ e ∈ st.entries, e ∈ fetch_all_logs (Logger.log st m now)) ∧
    mkEntry st m now ∈ fetch_all_logs (Logger.log st m now) ∧
    List.Sorted tsDesc (fetch_all_logs st) := by
  refine ⟨rfl, ?_, ?_, ?_⟩
  · intro e he
    unfold fetch_all_logs Logger.log
    rw [List.mem_insertionSort]
    exact List.mem_append_left _ he
  · unfold fetch_all_logs Logger.log
    rw [List.mem_insertionSort]
    exact List.mem_append_right _ (List.mem_singleton_self _)
  · exact List.sorted_insertionSort tsDesc st.entries

/-- C3: `cancel_order` on an order already in a terminal state returns `false` rather than
raising, and appends exactly one log message, which is error-level. -/
theorem cancel_order_terminal_rejection (orders : List (String × OrderStatus))
    (oid : String) (st : OrderStatus) (hfound : lookupOrder orders oid = some st)
    (hterm : st.isTerminal = true) :
    (cancel_order orders oid).ok = false ∧
    (cancel_order orders oid).logs.length = 1 ∧
    ∀ msg ∈ (cancel_order orders oid).logs, isErrorLevel msg = true := by
  have h : cancel_order orders oid = ⟨false, [errorCancelMsg]⟩ := by
    simp [cancel_order, hfound, hterm]
  rw [h]
  refine ⟨rfl, rfl, ?_⟩
  intro msg hm
  rw [List.mem_singleton.mp hm]
  rfl

/-- Witness for C3 at a concrete already-filled order. -/
theorem cancel_order_terminal_rejection_witness :
    (cancel_order [("ord1", OrderStatus.filled)] "ord1").ok = false ∧
    (cancel_order [("ord1", OrderStatus.filled)] "ord1").logs.length = 1 ∧
    ∀ msg ∈ (cancel_order [("ord1", OrderStatus.filled)] "ord1").logs,
      isErrorLevel msg = true :=
  cancel_order_terminal_rejection _ "ord1" OrderStatus.filled rfl rfl

/-- C4: `exit_position` with no matching open position returns `false`, submits no order
request, and leaves the venue's order set unchanged. -/
theorem exit_position_no_position (v : Venue) (symbol : String)
    (h : v.positions.find? (fun p => p.symbol == symbol) = none) :
    (exit_position v symbol).ok = false ∧
    (exit_position v symbol).sent = [] ∧
    (exit_position v symbol).venue.orders = v.orders := by
  simp [exit_position, h]

/-- Witness for C4 at a venue holding only an unrelated position. -/
theorem exit_position_no_position_witness :
    (exit_position ⟨[⟨"ETHUSD", 5, Side.long⟩], [], fun _ => true⟩ "BTCUSD").ok = false ∧
    (exit_position ⟨[⟨"ETHUSD", 5, Side.long⟩], [], fun _ => true⟩ "BTCUSD").sent = [] ∧
    (exit_position ⟨[⟨"ETHUSD", 5, Side.long⟩], [], fun _ => true⟩ "BTCUSD").venue.orders
      = [] :=
  exit_position_no_position ⟨[⟨"ETHUSD", 5, Side.long⟩], [], fun _ => true⟩ "BTCUSD" rfl

/-- C5: `exit_position` on a symbol with an open long position submits exactly one
offsetting sell-to-close market order sized to the held quantity, and returns `true` iff the
venue accepted that order. -/
theorem exit_position_long_offset (v : Venue) (symbol : String) (p : Position)
    (hfind : v.positions.find? (fun q => q.symbol == symbol) = some p)
    (hlong : p.side = Side.long) :
    (exit_position v symbol).sent =
      [⟨symbol, OrderType.market, OrderSide.sell, p.qty⟩] ∧
    ((exit_position v symbol).ok = true ↔
      v.accepts ⟨symbol, OrderType.market, OrderSide.sell, p.qty⟩ = true) := by
  cases hacc : v.accepts ⟨symbol, OrderType.market, OrderSide.sell, p.qty⟩ <;>
    simp [exit_position, hfind, hlong, closeSide, create_order, hacc]

/-- Witness for C5 at a venue holding a long position that the venue accepts to close. -/
theorem exit_position_long_offset_witness :
    (exit_position ⟨[⟨"BTCUSD", 9978, Side.long⟩], [], fun _ => true⟩ "BTCUSD").sent =
      [⟨"BTCUSD", OrderType.market, OrderSide.sell, 9978⟩] ∧
    ((exit_position ⟨[⟨"BTCUSD", 9978, Side.long⟩], [], fun _ => true⟩ "BTCUSD").ok = true ↔
      true = true) :=
  exit_position_long_offset ⟨[⟨"BTCUSD", 9978, Side.long⟩], [], fun _ => true⟩ "BTCUSD"
    ⟨"BTCUSD", 9978, Side.long⟩ rfl rfl

/-- C6: when the market-data venue cannot supply a latest price for a symbol,
`fetch_price` returns an absent value (`ok none`), never a raised fault. -/
theorem fetch_price_absent (tickers : List (String × Int)) (symbol : String)
    (h : lookupTicker tickers symbol = none) :
    fetch_price tickers symbol = Except.ok none := by
  simp [fetch_price, h]

/-- Witness for C6 at a ticker table lacking the requested symbol. -/
theorem fetch_price_absent_witness :
    fetch_price [("BTC/USDT", 933636)] "DOGE/USD" = Except.ok none :=
  fetch_price_absent [("BTC/USDT", 933636)] "DOGE/USD" rfl

/-- A missing key makes `dict.get(k, dflt)` return the default. -/
theorem dictGetD_eq_of_none {α : Type} (d : List (String × α)) (k : String) (dflt : α)
    (h : dictFind d k = none) : dictGetD d k dflt = dflt := by
  unfold dictGetD
  rw [h]
  rfl

/-- A present key makes `dict.get(k, dflt)` return the stored value. -/
theorem dictGetD_eq_of_some {α : Type} (d : List (String × α)) (k : String) (dflt a : α)
    (h : dictFind d k = some a) : dictGetD d k dflt = a := by
  unfold dictGetD
  rw [h]
  rfl

/-- C9: building the Alpaca credentials from the loaded config is total — with the whole
`alpaca` entry missing the credentials are the empty-string pair, and with only the `key`
or `secret` field missing that field is the empty string; nothing raises. -/
theorem alpaca_credentials_defaults (config : Config) :
    (dictFind config "alpaca" = none → alpaca_credentials config = ⟨"", ""⟩) ∧
    (∀ entry, dictFind config "alpaca" = some entry →
      (dictFind entry "key" = none → (alpaca_credentials config).key = "") ∧
      (dictFind entry "secret" = none → (alpaca_credentials config).secret = "")) := by
  refine ⟨?_, ?_⟩
  · intro h
    unfold alpaca_credentials
    rw [dictGetD_eq_of_none _ _ _ h]
    rfl
  · intro entry he
    refine ⟨?_, ?_⟩
    · intro hk
      show (alpaca_credentials config).key = ""
      unfold alpaca_credentials
      rw [dictGetD_eq_of_some _ _ _ _ he, dictGetD_eq_of_none _ _ _ hk]
    · intro hs
      show (alpaca_credentials config).secret = ""
      unfold alpaca_credentials
      rw [dictGetD_eq_of_some _ _ _ _ he, dictGetD_eq_of_none _ _ _ hs]

/-- Witness for C9 at a config that lacks the `alpaca` entry entirely. -/
theorem alpaca_credentials_defaults_witness :
    alpaca_credentials [("binance", [("key", "k1"), ("secret", "s1")])] = ⟨"", ""⟩ :=
  (alpaca_credentials_defaults [("binance", [("key", "k1"), ("secret", "s1")])]).1 rfl

/-- C10: the continuous-update cell runs exactly 5 iterations, each a `fetch_price` call
followed by the fixed one-second sleep, and a `KeyboardInterrupt` at any iteration is caught
by the cell's handler, so no fault ever propagates. -/
theorem continuous_update_demo_spec :
    (continuous_update_demo none).events =
      [Ev.fetchPriceCall, Ev.sleepOneSecond, Ev.fetchPriceCall, Ev.sleepOneSecond,
       Ev.fetchPriceCall, Ev.sleepOneSecond, Ev.fetchPriceCall, Ev.sleepOneSecond,
       Ev.fetchPriceCall, Ev.sleepOneSecond] ∧
    (continuous_update_demo none).events.count Ev.fetchPriceCall = 5 ∧
    (continuous_update_demo none).stoppedByInterrupt = false ∧
    ∀ k : Nat, (continuous_update_demo (some k)).faultPropagated = false := by
  refine ⟨by decide, by decide, by decide, ?_⟩
  intro k
  cases h : pollLoop 5 0 (some k) <;> simp [continuous_update_demo, h]

/-- Every candle of a venue page is a venue candle at or after the requested start. -/
theorem fetchPage_mem {venue : List Candle} {since cap : Nat} {c : Candle}
    (h : c ∈ fetchPage venue since cap) : c ∈ venue ∧ since ≤ c.timestamp := by
  unfold fetchPage at h
  have h1 := List.take_subset _ _ h
  rw [List.mem_filter] at h1
  exact ⟨h1.1, by simpa using h1.2⟩

/-- A page of a chronologically sorted venue is chronologically sorted. -/
theorem fetchPage_chron {venue : List Candle}
    (hv : venue.Pairwise (fun a b => a.timestamp < b.timestamp)) (since cap : Nat) :
    (fetchPage venue since cap).Pairwise (fun a b => a.timestamp < b.timestamp) := by
  unfold fetchPage
  exact List.Pairwise.sublist (List.take_sublist _ _) (hv.filter _)

/-- In a strictly chronological candle list, the last candle has the maximal timestamp. -/
theorem ts_le_getLast {l : List Candle}
    (hp : l.Pairwise (fun a b => a.timestamp < b.timestamp)) {last : Candle}
    (hl : l.getLast? = some last) : ∀ c ∈ l, c.timestamp ≤ last.timestamp := by
  obtain ⟨ys, rfl⟩ := List.getLast?_eq_some_iff.1 hl
  intro c hc
  rcases List.mem_append.mp hc with h | h
  · exact Nat.le_of_lt ((List.pairwise_append.mp hp).2.2 c h last (List.mem_singleton_self _))
  · rw [List.mem_singleton.mp h]

/-- Invariant of the paging loop: starting from `since` over a chronologically sorted venue,
every returned candle lies in `[since, endT)` and the returned candles are strictly
chronological. -/
theorem fetchLoop_spec (venue : List Candle) (symbol timeframe : String) (cap endT : Nat)
    (hv : venue.Pairwise (fun a b => a.timestamp < b.timestamp)) :
    ∀ fuel since,
      (∀ c ∈ (fetchLoop venue symbol timeframe cap endT fuel since).candles,
          since ≤ c.timestamp ∧ c.timestamp < endT) ∧
      (fetchLoop venue symbol timeframe cap endT fuel since).candles.Pairwise
        (fun a b => a.timestamp < b.timestamp) := by
  intro fuel
  induction fuel with
  | zero =>
    intro since
    refine ⟨?_, ?_⟩
    · intro c hc
      simp [fetchLoop] at hc
    · simp [fetchLoop]
  | succ n ih =>
    intro since
    cases hlast : (fetchPage venue since cap).getLast? with
    | none =>
      refine ⟨?_, ?_⟩
      · intro c hc
        simp [fetchLoop, hlast] at hc
      · simp [fetchLoop, hlast]
    | some last =>
      by_cases hstop : endT ≤ last.timestamp + 1 ∨ (fetchPage venue since cap).length < cap
      · have hcand : (fetchLoop venue symbol timeframe cap endT (n + 1) since).candles
            = (fetchPage venue since cap).filter (fun c => c.timestamp < endT) := by
          simp [fetchLoop, hlast, hstop]
        rw [hcand]
        refine ⟨?_, ?_⟩
        · intro c hc
          rw [List.mem_filter] at hc
          exact ⟨(fetchPage_mem hc.1).2, by simpa using hc.2⟩
        · exact List.Pairwise.filter _ (fetchPage_chron hv since cap)
      · have hcand : (fetchLoop venue symbol timeframe cap endT (n + 1) since).candles
            = (fetchPage venue since cap).filter (fun c => c.timestamp < endT)
              ++ (fetchLoop venue symbol timeframe cap endT n (last.timestamp + 1)).candles := by
          simp [fetchLoop, hlast, hstop]
        have hsince_last : since ≤ last.timestamp :=
          (fetchPage_mem (List.mem_of_getLast?_eq_some hlast)).2
        have hih := ih (last.timestamp + 1)
        rw [hcand]
        refine ⟨?_, ?_⟩
        · intro c hc
          rcases List.mem_append.mp hc with hc | hc
          · rw [List.mem_filter] at hc
            exact ⟨(fetchPage_mem hc.1).2, by simpa using hc.2⟩
          · have h2 := hih.1 c hc
            exact ⟨Nat.le_trans hsince_last (Nat.le_trans (Nat.le_succ _) h2.1), h2.2⟩
        · rw [List.pairwise_append]
          refine ⟨List.Pairwise.filter _ (fetchPage_chron hv since cap), hih.2, ?_⟩
          intro x hx y hy
          rw [List.mem_filter] at hx
          have hxle : x.timestamp ≤ last.timestamp :=
            ts_le_getLast (fetchPage_chron hv since cap) hlast x hx.1
          have hyge : last.timestamp + 1 ≤ y.timestamp := (hih.1 y hy).1
          exact Nat.lt_of_le_of_lt hxle (Nat.lt_of_succ_le hyge)

/-- C2: over a chronologically sorted venue, `fetch_historical_data` returns candles whose
timestamps all lie in the half-open range `[start, endT)`, in non-decreasing chronological
order. -/
theorem fetch_historical_data_range_ordered (market : String → String → List Candle)
    (symbol timeframe : String) (cap start endT : Nat)
    (hsorted : (market symbol timeframe).Pairwise (fun a b => a.timestamp < b.timestamp)) :
    (∀ c ∈ (fetch_historical_data market symbol timeframe cap start endT).candles,
        start ≤ c.timestamp ∧ c.timestamp < endT) ∧
    (fetch_historical_data market symbol timeframe cap start endT).candles.Pairwise
      (fun a b => a.timestamp ≤ b.timestamp) := by
  have h := fetchLoop_spec (market symbol timeframe) symbol timeframe cap endT hsorted
    ((market symbol timeframe).length + 1) start
  exact ⟨h.1, h.2.imp Nat.le_of_lt⟩

/-- Witness for C2: a two-page fetch (cap 2) over a four-candle venue, range `[0, 8)`. -/
theorem fetch_historical_data_range_ordered_witness :
    (∀ c ∈ (fetch_historical_data
        (fun _ _ => [⟨0, 1, 1, 1, 1, 1⟩, ⟨4, 1, 1, 1, 1, 1⟩, ⟨8, 1, 1, 1, 1, 1⟩,
          ⟨12, 1, 1, 1, 1, 1⟩])
        "BTC/USDT" "4h" 2 0 8).candles,
      0 ≤ c.timestamp ∧ c.timestamp < 8) ∧
    (fetch_historical_data
        (fun _ _ => [⟨0, 1, 1, 1, 1, 1⟩, ⟨4, 1, 1, 1, 1, 1⟩, ⟨8, 1, 1, 1, 1, 1⟩,
          ⟨12, 1, 1, 1, 1, 1⟩])
        "BTC/USDT" "4h" 2 0 8).candles.Pairwise (fun a b => a.timestamp ≤ b.timestamp) :=
  fetch_historical_data_range_ordered
    (fun _ _ => [⟨0, 1, 1, 1, 1, 1⟩, ⟨4, 1, 1, 1, 1, 1⟩, ⟨8, 1, 1, 1, 1, 1⟩,
      ⟨12, 1, 1, 1, 1, 1⟩])
    "BTC/USDT" "4h" 2 0 8 (by decide)

/-- The paging loop writes one `Fetched batch` log message per page it retrieved. -/
theorem fetchLoop_logs (venue : List Candle) (symbol timeframe : String) (cap endT : Nat) :
    ∀ fuel since,
      (fetchLoop venue symbol timeframe cap endT fuel since).logs.length =
        (fetchLoop venue symbol timeframe cap endT fuel since).batches.length ∧
      ∀ msg ∈ (fetchLoop venue symbol timeframe cap endT fuel since).logs,
        msg = batchLogMsg symbol timeframe := by
  intro fuel
  induction fuel with
  | zero =>
    intro since
    refine ⟨rfl, ?_⟩
    intro msg hm
    simp [fetchLoop] at hm
  | succ n ih =>
    intro since
    cases hlast : (fetchPage venue since cap).getLast? with
    | none =>
      refine ⟨?_, ?_⟩
      · simp [fetchLoop, hlast]
      · intro msg hm
        simp [fetchLoop, hlast] at hm
    | some last =>
      by_cases hstop : endT ≤ last.timestamp + 1 ∨ (fetchPage venue since cap).length < cap
      · refine ⟨?_, ?_⟩
        · simp [fetchLoop, hlast, hstop]
        · intro msg hm
          simp [fetchLoop, hlast, hstop] at hm
          rw [hm]
      · have hih := ih (last.timestamp + 1)
        refine ⟨?_, ?_⟩
        · have h1 : (fetchLoop venue symbol timeframe cap endT (n + 1) since).logs
              = batchLogMsg symbol timeframe
                :: (fetchLoop venue symbol timeframe cap endT n (last.timestamp + 1)).logs := by
            simp [fetchLoop, hlast, hstop]
          have h2 : (fetchLoop venue symbol timeframe cap endT (n + 1) since).batches
              = fetchPage venue since cap
                :: (fetchLoop venue symbol timeframe cap endT n (last.timestamp + 1)).batches := by
            simp [fetchLoop, hlast, hstop]
          rw [h1, h2, List.length_cons, List.length_cons, hih.1]
        · intro msg hm
          have h1 : (fetchLoop venue symbol timeframe cap endT (n + 1) since).logs
              = batchLogMsg symbol timeframe
                :: (fetchLoop venue symbol timeframe cap endT n (last.timestamp + 1)).logs := by
            simp [fetchLoop, hlast, hstop]
          rw [h1] at hm
          rcases List.mem_cons.mp hm with h | h
          · exact h
          · exact hih.2 msg h

/-- C8: every historical fetch writes exactly one `Fetched batch` log message per page it
retrieved from the venue. -/
theorem fetch_historical_data_one_log_per_page (market : String → String → List Candle)
    (symbol timeframe : String) (cap start endT : Nat) :
    (fetch_historical_data market symbol timeframe cap start endT).logs.length =
      (fetch_historical_data market symbol timeframe cap start endT).batches.length ∧
    ∀ msg ∈ (fetch_historical_data market symbol timeframe cap start endT).logs,
      msg = batchLogMsg symbol timeframe :=
  fetchLoop_logs (market symbol timeframe) symbol timeframe cap endT
    ((market symbol timeframe).length + 1) start

end CryptoKit
